import Mathlib

/-!
Verification of the audio-channel routing planner of
`voctocore/lib/sources/decklinkavsource.py` (class `DeckLinkAVSource`).

The Python code is shallowly embedded: configuration sections become
association lists of string pairs, the regular expressions `(\d+)\+(\d+)`
and `audiostream\[(\d+)\]` (Python `re.match`, i.e. anchored at the start of
the string only) become character-level matchers over ASCII digits, and
the Python built-in `int(str)` becomes `pyInt` (optional surrounding ASCII
whitespace, optional sign, decimal digits with single underscores allowed
between digits).  Exceptions become `Except` errors; the emitted GStreamer
pipeline string is abstracted into the list of audio graph elements it
declares (`AudioFrag`).
-/

set_option linter.unusedVariables false

namespace Voctomix

/-! ### Character-level helpers for the embedded regexes and `int()` -/

/-- Numeric value of an ASCII digit character. -/
def digitVal (c : Char) : Nat := c.toNat - 48

/-- Decimal value of a list of ASCII digit characters. -/
def digitsToNat (cs : List Char) : Nat :=
  cs.foldl (fun a c => a * 10 + digitVal c) 0

/-- ASCII whitespace stripped by the Python `int(str)` built-in before parsing. -/
def isPyWs (c : Char) : Bool :=
  c = ' ' || c = '\t' || c = '\n' || c = '\x0d' || c = '\x0b' || c = '\x0c'

/-- Continuation of Python integer-literal digits: further digits, with a
single underscore permitted between two digits. `acc` is the value read so
far. -/
def pyDigitsAux : Nat → List Char → Option Nat
  | acc, [] => some acc
  | acc, c :: rest =>
      if c.isDigit then pyDigitsAux (acc * 10 + digitVal c) rest
      else if c = '_' then
        match rest with
        | [] => none
        | c2 :: rest2 =>
            if c2.isDigit then pyDigitsAux (acc * 10 + digitVal c2) rest2
            else none
      else none

/-- A non-empty run of ASCII digits with single underscores between digits,
consuming the whole list, as accepted by the integer parser of Python after
sign and whitespace handling. -/
def pyDigits : List Char → Option Nat
  | [] => none
  | c :: rest => if c.isDigit then pyDigitsAux (digitVal c) rest else none

/-- Model of the Python built-in `int(s)` for a string `s` (base 10,
ASCII): strip surrounding whitespace, then an optional `+`/`-` sign, then a
non-empty digit run (underscores allowed between digits).  Returns `none`
where Python raises `ValueError`.  `pyStrip` is the whitespace strip. -/
def pyStrip (cs : List Char) : List Char :=
  ((cs.dropWhile isPyWs).reverse.dropWhile isPyWs).reverse

/-- After whitespace stripping: an optional sign, then digits. -/
def pyInt (s : String) : Option Int :=
  match pyStrip s.toList with
  | [] => none
  | c :: rest =>
      if c = '+' then (pyDigits rest).map Int.ofNat
      else if c = '-' then (pyDigits rest).map (fun n => -(n : Int))
      else (pyDigits (c :: rest)).map Int.ofNat

/-- Embedding of `re.match on pattern (\d+)\+(\d+) applied to s`: anchored at the start of
`s` but not at the end, so trailing characters are ignored.  Returns the two
captured decimal numbers. -/
def matchPairRE (s : String) : Option (Nat × Nat) :=
  if s.toList.takeWhile Char.isDigit = [] then none
  else
    match s.toList.dropWhile Char.isDigit with
    | '+' :: rest =>
        if rest.takeWhile Char.isDigit = [] then none
        else some (digitsToNat (s.toList.takeWhile Char.isDigit),
                   digitsToNat (rest.takeWhile Char.isDigit))
    | _ => none

/-- Helper for `matchKeyRE`: after the literal `audiostream[`, a non-empty
digit run followed by `]` (trailing characters ignored, as `re.match` is
not end-anchored). -/
def matchKeyAux (cs : List Char) : Option Nat :=
  if cs.takeWhile Char.isDigit = [] then none
  else
    match cs.dropWhile Char.isDigit with
    | ']' :: _ => some (digitsToNat (cs.takeWhile Char.isDigit))
    | _ => none

/-- Embedding of `re.match on pattern audiostream\[(\d+)\] applied to key`: anchored at the
start of `key` only.  Returns the captured stream index. -/
def matchKeyRE (key : String) : Option Nat :=
  match key.toList with
  | 'a' :: 'u' :: 'd' :: 'i' :: 'o' :: 's' :: 't' :: 'r' :: 'e' :: 'a' :: 'm' :: '[' :: rest =>
      matchKeyAux rest
  | _ => none

/-! ### Errors

The spec names the three fatal configuration errors `MalformedMappingError`
(the `ValueError` escaping `int()` in `_parse_audiostream_mapping`),
`StreamIndexOutOfRangeError` (the `RuntimeError` in
`_warn_incorrect_number_of_streams`, carrying the offending stream index and
the configured limit) and `ChannelCapacityExceededError` (the `RuntimeError`
in `_round_decklink_channels`, carrying the computed requirement). -/

inductive ConstructError where
  /-- `ValueError` from `int(mapping)`: the offending value string. -/
  | malformedMapping (value : String)
  /-- Out-of-range output stream index and the configured stream count. -/
  | streamIndexOutOfRange (index : Nat) (limit : Nat)
  /-- Required channel count above 16. -/
  | channelCapacityExceeded (requested : Int)
  deriving DecidableEq, Repr

/-! ### The parser functions of `DeckLinkAVSource` -/

/-- Embedding of `_parse_audiostream_mapping`: try
re.match on pattern `(\d+)\+(\d+)` against `mapping`; on success return `(left, some right)`,
otherwise return `(int(mapping), none)` where a failing `int()` raises. -/
def parse_audiostream_mapping (mapping : String) :
    Except ConstructError (Int × Option Int) :=
  match matchPairRE mapping with
  | some (l, r) => .ok ((l : Int), some (r : Int))
  | none =>
      match pyInt mapping with
      | some n => .ok (n, none)
      | none => .error (.malformedMapping mapping)

/-- Python-dict assignment `m[k] = v` on an insertion-ordered association
list: an existing key keeps its original position and gets the new value, a
new key is appended at the end. -/
def dictInsert (m : List (Nat × String)) (k : Nat) (v : String) :
    List (Nat × String) :=
  if m.any (fun p => p.1 = k) then
    m.map (fun p => if p.1 = k then (k, v) else p)
  else
    m ++ [(k, v)]

/-- First-match lookup in an insertion-ordered association list (Python
`m[k]` / `k in m`). -/
def dictGet (m : List (Nat × String)) (k : Nat) : Option String :=
  (m.find? (fun p => p.1 = k)).map (fun p => p.2)

/-- One configuration entry folded into the mapping dict: a key whose
start matches `audiostream[(\d+)]` stores its value under the captured
index, any other key is ignored. -/
def mapStep (m : List (Nat × String)) (kv : String × String) :
    List (Nat × String) :=
  match matchKeyRE kv.1 with
  | some i => dictInsert m i kv.2
  | none => m

/-- Embedding of `_parse_audiostream_map`: if the configuration
section is absent the map is empty; otherwise every key whose start matches
`audiostream[(\d+)]` contributes its raw value under the captured index
(later keys with the same index overwrite), and every other key is
ignored. -/
def parse_audiostream_map (sect : Option (List (String × String))) :
    List (Nat × String) :=
  match sect with
  | none => []
  | some entries => entries.foldl mapStep []

/-- Embedding of `_warn_incorrect_number_of_streams`: raise on the first
entry whose output stream index is `≥` the configured `mix.audiostreams`
count. -/
def warn_incorrect_number_of_streams (m : List (Nat × String))
    (numStreams : Nat) : Except ConstructError Unit :=
  match m.find? (fun p => numStreams ≤ p.1) with
  | some p => .error (.streamIndexOutOfRange p.1 numStreams)
  | none => .ok ()

/-! ### Channel-count planning -/

/-- The loop body of `_calculate_required_input_channels`: fold the running
maximum over the parsed entries.  Note the Python guard is `if right:`, so a
right channel of `0` (falsy) is skipped when updating the maximum. -/
def calcLoop : Int → List (Nat × String) → Except ConstructError Int
  | acc, [] => .ok acc
  | acc, p :: rest =>
      match parse_audiostream_mapping p.2 with
      | .error e => .error e
      | .ok (left, right) =>
          let acc1 := max acc (left + 1)
          let acc2 :=
            match right with
            | none => acc1
            | some r => if r = 0 then acc1 else max acc1 (r + 1)
          calcLoop acc2 rest

/-- Embedding of `_round_decklink_channels`: error above 16, else round up
to the tier 16, 8 or 2. -/
def round_decklink_channels (n : Int) : Except ConstructError Int :=
  if 16 < n then .error (.channelCapacityExceeded n)
  else if 8 < n then .ok 16
  else if 2 < n then .ok 8
  else .ok 2

/-- Embedding of `_calculate_required_input_channels`: fold the maximum
referenced channel index plus one over all entries (starting from 0), then
round to a supported tier. -/
def calculate_required_input_channels (m : List (Nat × String)) :
    Except ConstructError Int :=
  match calcLoop 0 m with
  | .error e => .error e
  | .ok req => round_decklink_channels req

/-! ### The audio half of `launch_pipeline`

The pipeline string is abstracted into the graph elements it declares.
`interleavePoint s` is `interleave name=i-<name>-<s>`; `pairLink c s k` is
`aout-<name>.src_<c> ! queue ! i-<name>-<s>.sink_<k>`; `teePoint c s` is
`aout-<name>.src_<c> ! tee name=t-<name>-<s>`; `teeLink s k` is
`t-<name>-<s>. ! queue ! i-<name>-<s>.sink_<k>`. -/

inductive AudioFrag where
  | interleavePoint (stream : Nat)
  | pairLink (chan : Int) (stream : Nat) (sink : Nat)
  | teePoint (chan : Int) (stream : Nat)
  | teeLink (stream : Nat) (sink : Nat)
  deriving DecidableEq, Repr

/-- Elements emitted by one iteration of the mapping loop in
`launch_pipeline`: the `right is not None` branch wires both channels
straight into the two interleave sinks, the `else` branch inserts a `tee` on
the single channel and wires its two outputs into the sinks. -/
def emitAudioEntry (stream : Nat) (value : String) :
    Except ConstructError (List AudioFrag) :=
  match parse_audiostream_mapping value with
  | .error e => .error e
  | .ok (left, some right) =>
      .ok [.interleavePoint stream,
           .pairLink left stream 0,
           .pairLink right stream 1]
  | .ok (left, none) =>
      .ok [.interleavePoint stream,
           .teePoint left stream,
           .teeLink stream 0,
           .teeLink stream 1]

/-- All elements emitted by the mapping loop of `launch_pipeline`, in
declaration order. -/
def emitAudioFrags : List (Nat × String) → Except ConstructError (List AudioFrag)
  | [] => .ok []
  | (s, v) :: rest =>
      match emitAudioEntry s v with
      | .error e => .error e
      | .ok block =>
          match emitAudioFrags rest with
          | .error e => .error e
          | .ok tail => .ok (block ++ tail)

/-! ### Routing rules (spec §4.4 vocabulary)

`RoutingRule` is the name the spec gives for what one loop iteration of
`launch_pipeline` emits; `specRules` is the compiler of the spec
(`Pair(l,r) ↦ DirectPair`, `Single(c) ↦ DuplicatedMono`, in declaration
order), and `ruleFrags` is the pipeline topology the spec prescribes for
each rule kind. -/

inductive RoutingRule where
  | directPair (stream : Nat) (left : Int) (right : Int)
  | duplicatedMono (stream : Nat) (chan : Int)
  deriving DecidableEq, Repr

/-- The output stream index a rule feeds. -/
def ruleStream : RoutingRule → Nat
  | .directPair s _ _ => s
  | .duplicatedMono s _ => s

/-- Pipeline elements prescribed by the spec for one rule: a `DirectPair`
wires its two raw channels directly into the interleave point (no
duplication stage), a `DuplicatedMono` inserts a duplication (`tee`) point
on its one channel and feeds both copies into the interleave point. -/
def ruleFrags : RoutingRule → List AudioFrag
  | .directPair s l r =>
      [.interleavePoint s, .pairLink l s 0, .pairLink r s 1]
  | .duplicatedMono s c =>
      [.interleavePoint s, .teePoint c s, .teeLink s 0, .teeLink s 1]

/-- The RoutingGraphCompiler of the spec on a parsed mapping: one rule per entry
in declaration order, `DirectPair` for pair values, `DuplicatedMono` for
single values. -/
def specRules : List (Nat × String) → Except ConstructError (List RoutingRule)
  | [] => .ok []
  | (s, v) :: rest =>
      match parse_audiostream_mapping v with
      | .error e => .error e
      | .ok (l, some r) =>
          match specRules rest with
          | .error e => .error e
          | .ok tail => .ok (.directPair s l r :: tail)
      | .ok (l, none) =>
          match specRules rest with
          | .error e => .error e
          | .ok tail => .ok (.duplicatedMono s l :: tail)

/-! ### Source construction (`__init__`) -/

/-- The configuration inputs of a source: the `source.<name>` section as an
ordered key/value list (`none` when the section is absent) and the mix-wide
`mix.audiostreams` count. -/
structure SourceConfig where
  sect : Option (List (String × String))
  audiostreams : Nat
  deriving DecidableEq, Repr

/-- The state a successfully constructed `DeckLinkAVSource` holds: the
parsed mapping, the fallback flag, the resolved channel count, and the
audio part of the built pipeline (`deinterleaved` is false exactly in
fallback mode, where `decklinkaudiosrc` itself is named `aout-<name>`). -/
structure SourceState where
  audiostream_map : List (Nat × String)
  fallback_default : Bool
  required_input_channels : Int
  deinterleaved : Bool
  pipelineFrags : List AudioFrag
  deriving DecidableEq, Repr

/-- Construction milestones, in the order `__init__` reaches them.
`builtPipeline` marks the final `build_pipeline` call of
`launch_pipeline`. -/
inductive Event where
  | parsedMap
  | checkedBounds
  | computedChannels
  | builtPipeline
  deriving DecidableEq, Repr

/-- Embedding of `__init__`: parse the mapping, set the fallback flag,
bounds-check the stream indices, compute the required channel count, then
build the pipeline.  Returns the milestones reached alongside the result. -/
def constructRun (cfg : SourceConfig) :
    List Event × Except ConstructError SourceState :=
  match warn_incorrect_number_of_streams (parse_audiostream_map cfg.sect)
      cfg.audiostreams with
  | .error e => ([.parsedMap], .error e)
  | .ok _ =>
      match calculate_required_input_channels (parse_audiostream_map cfg.sect) with
      | .error e => ([.parsedMap, .checkedBounds], .error e)
      | .ok req =>
          match emitAudioFrags (parse_audiostream_map cfg.sect) with
          | .error e => ([.parsedMap, .checkedBounds, .computedChannels], .error e)
          | .ok frags =>
              ([.parsedMap, .checkedBounds, .computedChannels, .builtPipeline],
               .ok { audiostream_map := parse_audiostream_map cfg.sect
                     fallback_default := (parse_audiostream_map cfg.sect).isEmpty
                     required_input_channels := req
                     deinterleaved := !(parse_audiostream_map cfg.sect).isEmpty
                     pipelineFrags := frags })

/-- The result of source construction. -/
def constructSource (cfg : SourceConfig) : Except ConstructError SourceState :=
  (constructRun cfg).2

/-- The milestones construction reaches. -/
def constructEvents (cfg : SourceConfig) : List Event :=
  (constructRun cfg).1

/-- `true` iff construction succeeds. -/
def constructOk (cfg : SourceConfig) : Bool :=
  match constructSource cfg with
  | .ok _ => true
  | .error _ => false

/-- Embedding of `audio_channels`: 1 for an empty mapping, else the number
of entries. -/
def audio_channels (s : SourceState) : Nat :=
  if s.audiostream_map.length = 0 then 1 else s.audiostream_map.length

/-- What `build_audioport` returns: in fallback mode, stream 0 is the raw
stereo device source itself (`aout-<name>.` names `decklinkaudiosrc`);
otherwise a mapped stream is the output of its interleave point. -/
inductive AudioPort where
  | deviceDirect
  | interleaveOut (stream : Nat)
  deriving DecidableEq, Repr

/-- Embedding of `build_audioport`. -/
def build_audioport (s : SourceState) (audiostream : Nat) : Option AudioPort :=
  if s.fallback_default && audiostream = 0 then some .deviceDirect
  else if s.audiostream_map.any (fun p => p.1 = audiostream) then
    some (.interleaveOut audiostream)
  else none

/-- Embedding of `restart`: tear the pipeline down and run
`launch_pipeline` again on the unchanged stored mapping; the audio graph it
emits. -/
def restartFrags (s : SourceState) : Except ConstructError (List AudioFrag) :=
  emitAudioFrags s.audiostream_map

/-! ### Definitions taken from the words of the spec, for comparison -/

/-- One step of the spec quantity `maxReferenced`: fold in the maximum
referenced channel of one entry, plus one. -/
def specMaxStep (acc : Int) (p : Nat × String) : Int :=
  match parse_audiostream_mapping p.2 with
  | .ok (l, some r) => max acc (max l r + 1)
  | .ok (l, none) => max acc (l + 1)
  | .error _ => acc

/-- The quantity `maxReferenced` of the spec: the maximum over all entries of (maximum of
referenced channels) + 1, and 0 for the empty mapping.  Entries are read
through the value-parsing function of the source; unparseable entries contribute
nothing. -/
def specMaxReferenced (m : List (Nat × String)) : Int :=
  m.foldl specMaxStep 0

/-- The spec value pattern `"<N>"`: the whole value is one non-empty run
of decimal digits. -/
def specMatchesSingle (s : String) : Bool :=
  !s.toList.isEmpty && s.toList.all Char.isDigit

/-- The spec value pattern `"<L>+<R>"`: digits, a `+`, digits — matching
the whole value. -/
def specMatchesPair (s : String) : Bool :=
  !(s.toList.takeWhile Char.isDigit).isEmpty &&
    match s.toList.dropWhile Char.isDigit with
    | '+' :: rest => !rest.isEmpty && rest.all Char.isDigit
    | _ => false

/-- The spec key pattern `audiostream[<index>]`, matching the whole
key. -/
def specMatchesKey (key : String) : Bool :=
  match key.toList with
  | 'a' :: 'u' :: 'd' :: 'i' :: 'o' :: 's' :: 't' :: 'r' :: 'e' :: 'a' :: 'm' :: '[' :: rest =>
      !(rest.takeWhile Char.isDigit).isEmpty &&
        match rest.dropWhile Char.isDigit with
        | [']'] => true
        | _ => false
  | _ => false

/-- The last declared value for stream index `i` in a configuration
section, per the spec sentence "later entries for the same index overwrite earlier
ones". -/
def lastDecl (i : Nat) (entries : List (String × String)) : Option String :=
  (entries.reverse.find? (fun kv => matchKeyRE kv.1 = some i)).map
    (fun kv => kv.2)

/-- Number of interleave points declared for output stream `s` in an
emitted element list. -/
def countInterleaves (s : Nat) (fs : List AudioFrag) : Nat :=
  fs.countP (fun f =>
    match f with
    | .interleavePoint s2 => s2 == s
    | _ => false)

/-! ### Facts about the value parser -/

/-- A mapping all of whose entries parse, with non-negative channel
references — the valid StreamMappings of the spec. -/
def ValidMapping (m : List (Nat × String)) : Prop :=
  ∀ p ∈ m, ∃ l ro, parse_audiostream_mapping p.2 = .ok (l, ro) ∧ 0 ≤ l

/-- When the value parser returns a pair, both components were captured by
the digit regex and are therefore non-negative. -/
theorem parse_ok_pair_nonneg {v : String} {l r : Int}
    (h : parse_audiostream_mapping v = .ok (l, some r)) : 0 ≤ l ∧ 0 ≤ r := by
  unfold parse_audiostream_mapping at h
  cases hm : matchPairRE v with
  | some p =>
      obtain ⟨a, b⟩ := p
      rw [hm] at h
      simp only [Except.ok.injEq, Prod.mk.injEq, Option.some.injEq] at h
      obtain ⟨h1, h2⟩ := h
      subst h1; subst h2
      exact ⟨Int.natCast_nonneg a, Int.natCast_nonneg b⟩
  | none =>
      rw [hm] at h
      cases hp : pyInt v with
      | some n => rw [hp] at h; simp at h
      | none => rw [hp] at h; simp at h

/-- The value parser only ever fails with `MalformedMappingError` naming the
offending value. -/
theorem parse_error_shape {v : String} {e : ConstructError}
    (h : parse_audiostream_mapping v = .error e) :
    e = ConstructError.malformedMapping v := by
  unfold parse_audiostream_mapping at h
  cases hm : matchPairRE v with
  | some p =>
      obtain ⟨a, b⟩ := p
      rw [hm] at h
      simp at h
  | none =>
      rw [hm] at h
      cases hp : pyInt v with
      | some n => rw [hp] at h; simp at h
      | none =>
          rw [hp] at h
          injection h with h
          exact h.symm

/-! ### Facts about channel-count planning -/

/-- On a mapping whose entries all parse with non-negative left channels,
the channel-counting loop computes exactly the spec fold `specMaxStep`
(the `if right:` guard skipping a right channel of 0 never lowers the
maximum, because `left + 1` is already at least 1). -/
theorem calcLoop_eq_specfold (m : List (Nat × String)) :
    ∀ acc : Int,
      (∀ p ∈ m, ∃ l ro, parse_audiostream_mapping p.2 = .ok (l, ro) ∧ 0 ≤ l) →
      calcLoop acc m = .ok (m.foldl specMaxStep acc) := by
  induction m with
  | nil => intro acc H; rfl
  | cons p rest ih =>
      intro acc H
      obtain ⟨l, ro, hp, hl⟩ := H p (List.mem_cons_self p rest)
      have Hrest : ∀ q ∈ rest,
          ∃ l ro, parse_audiostream_mapping q.2 = .ok (l, ro) ∧ 0 ≤ l :=
        fun q hq => H q (List.mem_cons_of_mem p hq)
      cases ro with
      | none =>
          have hstep : specMaxStep acc p = max acc (l + 1) := by
            unfold specMaxStep
            rw [hp]
          rw [List.foldl_cons, hstep]
          simp only [calcLoop, hp]
          exact ih (max acc (l + 1)) Hrest
      | some r =>
          have hr : 0 ≤ r := (parse_ok_pair_nonneg hp).2
          have hstep : specMaxStep acc p = max acc (max l r + 1) := by
            unfold specMaxStep
            rw [hp]
          rw [List.foldl_cons, hstep]
          simp only [calcLoop, hp]
          by_cases h0 : r = 0
          · subst h0
            rw [if_pos rfl, max_eq_left hl]
            exact ih (max acc (l + 1)) Hrest
          · rw [if_neg h0,
              show max acc (max l r + 1) = max (max acc (l + 1)) (r + 1) from by
                rw [max_assoc, max_add_add_right]]
            exact ih (max (max acc (l + 1)) (r + 1)) Hrest

/-- The channel-counting loop never returns less than its accumulator. -/
theorem calcLoop_ok_ge (m : List (Nat × String)) :
    ∀ acc req : Int, calcLoop acc m = .ok req → acc ≤ req := by
  induction m with
  | nil =>
      intro acc req h
      injection h with h
      omega
  | cons p rest ih =>
      intro acc req h
      cases hp : parse_audiostream_mapping p.2 with
      | error e =>
          simp only [calcLoop, hp] at h
          exact Except.noConfusion h
      | ok pr =>
          obtain ⟨l, ro⟩ := pr
          cases ro with
          | none =>
              simp only [calcLoop, hp] at h
              exact le_trans (le_max_left acc (l + 1)) (ih _ req h)
          | some r =>
              simp only [calcLoop, hp] at h
              by_cases h0 : r = 0
              · subst h0
                rw [if_pos rfl] at h
                exact le_trans (le_max_left acc (l + 1)) (ih _ req h)
              · rw [if_neg h0] at h
                exact le_trans
                  (le_trans (le_max_left acc (l + 1)) (le_max_left _ (r + 1)))
                  (ih _ req h)

/-- Every channel reference of every entry is accounted for in the result
of the channel-counting loop: `left + 1` always, `right + 1` whenever
`right` is not the (falsy) 0. -/
theorem calcLoop_bounds (m : List (Nat × String)) :
    ∀ acc req : Int, calcLoop acc m = .ok req →
      ∀ p ∈ m, ∀ l ro, parse_audiostream_mapping p.2 = .ok (l, ro) →
        l + 1 ≤ req ∧ ∀ r, ro = some r → r ≠ 0 → r + 1 ≤ req := by
  induction m with
  | nil =>
      intro acc req h p hp
      exact absurd hp (List.not_mem_nil p)
  | cons q rest ih =>
      intro acc req h p hp l ro hparse
      rcases List.mem_cons.mp hp with rfl | hmem
      · cases ro with
        | none =>
            simp only [calcLoop, hparse] at h
            refine ⟨le_trans (le_max_right acc (l + 1)) (calcLoop_ok_ge rest _ req h), ?_⟩
            intro r hr
            exact absurd hr (by simp)
        | some r0 =>
            simp only [calcLoop, hparse] at h
            by_cases h0 : r0 = 0
            · subst h0
              rw [if_pos rfl] at h
              refine ⟨le_trans (le_max_right acc (l + 1)) (calcLoop_ok_ge rest _ req h), ?_⟩
              intro r hr hne
              injection hr with hr
              exact absurd hr.symm hne
            · rw [if_neg h0] at h
              have hge := calcLoop_ok_ge rest _ req h
              refine ⟨?_, ?_⟩
              · exact le_trans
                  (le_trans (le_max_right acc (l + 1)) (le_max_left _ (r0 + 1))) hge
              · intro r hr hne
                injection hr with hr
                subst hr
                exact le_trans (le_max_right _ (r0 + 1)) hge
      · cases hq : parse_audiostream_mapping q.2 with
        | error e =>
            simp only [calcLoop, hq] at h
            exact Except.noConfusion h
        | ok pr =>
            obtain ⟨l0, ro0⟩ := pr
            cases ro0 with
            | none =>
                simp only [calcLoop, hq] at h
                exact ih _ req h p hmem l ro hparse
            | some r0 =>
                simp only [calcLoop, hq] at h
                by_cases h0 : r0 = 0
                · subst h0
                  rw [if_pos rfl] at h
                  exact ih _ req h p hmem l ro hparse
                · rw [if_neg h0] at h
                  exact ih _ req h p hmem l ro hparse

/-- Successful tier rounding bounds its input and lands in {2, 8, 16}. -/
theorem round_ok_le {n t : Int} (h : round_decklink_channels n = .ok t) :
    n ≤ t ∧ 2 ≤ t ∧ (t = 2 ∨ t = 8 ∨ t = 16) := by
  unfold round_decklink_channels at h
  split_ifs at h with h1 h2 h3 <;> (injection h with h; omega)

/-- Tier rounding fails exactly above 16, reporting the computed
requirement. -/
theorem round_error_shape {n : Int} {e : ConstructError}
    (h : round_decklink_channels n = .error e) :
    e = ConstructError.channelCapacityExceeded n ∧ 16 < n := by
  unfold round_decklink_channels at h
  split_ifs at h with h1 h2 h3
  injection h with h
  exact ⟨h.symm, h1⟩

/-- Tier rounding is minimal among the supported tiers. -/
theorem round_ok_min {n t u : Int} (h : round_decklink_channels n = .ok t)
    (hu : u = 2 ∨ u = 8 ∨ u = 16) (hn : n ≤ u) : t ≤ u := by
  unfold round_decklink_channels at h
  split_ifs at h with h1 h2 h3 <;> (injection h with h; omega)

/-- Tier rounding succeeds at or below 16. -/
theorem round_ok_of_le {n : Int} (h : n ≤ 16) :
    ∃ t, round_decklink_channels n = .ok t := by
  unfold round_decklink_channels
  split_ifs with h1 h2 h3
  · exact absurd h1 (by omega)
  · exact ⟨16, rfl⟩
  · exact ⟨8, rfl⟩
  · exact ⟨2, rfl⟩

/-- C1: on every valid StreamMapping, the channel-count planner returns the
smallest member of {2, 8, 16} that is at least `maxReferenced` (the maximum
referenced channel index plus one over all entries, 0 for an empty
mapping), and fails with `ChannelCapacityExceededError` when
`maxReferenced` exceeds 16. -/
theorem claim_C1_channel_count_planner (m : List (Nat × String))
    (H : ValidMapping m) :
    specMaxReferenced ([] : List (Nat × String)) = 0 ∧
    (specMaxReferenced m ≤ 16 →
      ∃ t, calculate_required_input_channels m = .ok t ∧
        (t = 2 ∨ t = 8 ∨ t = 16) ∧ specMaxReferenced m ≤ t ∧
        ∀ u, (u = 2 ∨ u = 8 ∨ u = 16) → specMaxReferenced m ≤ u → t ≤ u) ∧
    (16 < specMaxReferenced m →
      calculate_required_input_channels m =
        .error (.channelCapacityExceeded (specMaxReferenced m))) := by
  have hcl : calcLoop 0 m = .ok (specMaxReferenced m) :=
    calcLoop_eq_specfold m 0 H
  have hcalc : calculate_required_input_channels m =
      round_decklink_channels (specMaxReferenced m) := by
    unfold calculate_required_input_channels
    rw [hcl]
  refine ⟨rfl, ?_, ?_⟩
  · intro hle
    obtain ⟨t, ht⟩ := round_ok_of_le hle
    refine ⟨t, by rw [hcalc, ht], (round_ok_le ht).2.2, (round_ok_le ht).1, ?_⟩
    intro u hu hnu
    exact round_ok_min ht hu hnu
  · intro hgt
    rw [hcalc]
    unfold round_decklink_channels
    rw [if_pos hgt]

/-- Witness for C1 at the mapping `{0: "5"}`: `maxReferenced` is 6 and the
planner resolves tier 8, the least supported tier at or above 6. -/
theorem claim_C1_witness :
    ∃ t, calculate_required_input_channels [(0, "5")] = .ok t ∧
      (t = 2 ∨ t = 8 ∨ t = 16) ∧ specMaxReferenced [(0, "5")] ≤ t ∧
      ∀ u, (u = 2 ∨ u = 8 ∨ u = 16) → specMaxReferenced [(0, "5")] ≤ u → t ≤ u := by
  have hv : ValidMapping [(0, "5")] := by
    intro p hp
    rcases List.mem_singleton.mp hp with rfl
    exact ⟨5, none, rfl, by norm_num⟩
  exact (claim_C1_channel_count_planner [(0, "5")] hv).2.1 (by decide)

/-- C6: whenever the channel-count planner accepts a mapping, every channel
index referenced by any entry (left, and right even when it is 0) is
strictly below the resolved `requiredInputChannels`. -/
theorem claim_C6_refs_below_channel_count (m : List (Nat × String)) (n : Int)
    (h : calculate_required_input_channels m = .ok n) :
    ∀ p ∈ m, ∀ l ro, parse_audiostream_mapping p.2 = .ok (l, ro) →
      l < n ∧ ∀ r, ro = some r → r < n := by
  unfold calculate_required_input_channels at h
  cases hcl : calcLoop 0 m with
  | error e => rw [hcl] at h; simp at h
  | ok req =>
      rw [hcl] at h
      have hrd := round_ok_le h
      intro p hp l ro hparse
      have hb := calcLoop_bounds m 0 req hcl p hp l ro hparse
      constructor
      · have := hb.1
        omega
      · intro r hr
        by_cases h0 : r = 0
        · subst h0
          omega
        · have := hb.2 r hr h0
          omega

/-- Witness for C6 at the mapping `{0: "5+0"}` (tier 8): both referenced
channels, 5 and the right channel 0, are below 8. -/
theorem claim_C6_witness :
    calculate_required_input_channels [(0, "5+0")] = .ok 8 ∧
      (5 : Int) < 8 ∧ (0 : Int) < 8 := by
  have h : calculate_required_input_channels [(0, "5+0")] = .ok 8 := rfl
  have hb := claim_C6_refs_below_channel_count [(0, "5+0")] 8 h (0, "5+0")
    (List.mem_singleton.mpr rfl) 5 (some 0) rfl
  exact ⟨h, hb.1, hb.2 0 rfl⟩

/-! ### Facts about the routing graph compiler -/

/-- The element list emitted by `launch_pipeline` for a mapping is exactly
the concatenation of the per-rule topologies the spec prescribes. -/
theorem specRules_emit (m : List (Nat × String)) :
    ∀ rules, specRules m = .ok rules →
      emitAudioFrags m = .ok (List.flatten (rules.map ruleFrags)) := by
  induction m with
  | nil =>
      intro rules h
      injection h with h
      subst h
      rfl
  | cons p rest ih =>
      obtain ⟨s0, v0⟩ := p
      intro rules h
      cases hp : parse_audiostream_mapping v0 with
      | error e =>
          simp only [specRules, hp] at h
          exact Except.noConfusion h
      | ok pr =>
          obtain ⟨l0, ro⟩ := pr
          cases ro with
          | some r0 =>
              simp only [specRules, hp] at h
              cases ht : specRules rest with
              | error e => rw [ht] at h; exact Except.noConfusion h
              | ok tail =>
                  rw [ht] at h
                  injection h with h
                  subst h
                  simp only [emitAudioFrags, emitAudioEntry, hp, ih tail ht,
                    List.map_cons, List.flatten_cons, ruleFrags]
          | none =>
              simp only [specRules, hp] at h
              cases ht : specRules rest with
              | error e => rw [ht] at h; exact Except.noConfusion h
              | ok tail =>
                  rw [ht] at h
                  injection h with h
                  subst h
                  simp only [emitAudioFrags, emitAudioEntry, hp, ih tail ht,
                    List.map_cons, List.flatten_cons, ruleFrags]

/-- The compiler emits exactly one rule per mapping entry. -/
theorem specRules_length (m : List (Nat × String)) :
    ∀ rules, specRules m = .ok rules → rules.length = m.length := by
  induction m with
  | nil =>
      intro rules h
      injection h with h
      subst h
      rfl
  | cons p rest ih =>
      obtain ⟨s0, v0⟩ := p
      intro rules h
      cases hp : parse_audiostream_mapping v0 with
      | error e =>
          simp only [specRules, hp] at h
          exact Except.noConfusion h
      | ok pr =>
          obtain ⟨l0, ro⟩ := pr
          cases ro with
          | some r0 =>
              simp only [specRules, hp] at h
              cases ht : specRules rest with
              | error e => rw [ht] at h; exact Except.noConfusion h
              | ok tail =>
                  rw [ht] at h
                  injection h with h
                  subst h
                  simp [ih tail ht]
          | none =>
              simp only [specRules, hp] at h
              cases ht : specRules rest with
              | error e => rw [ht] at h; exact Except.noConfusion h
              | ok tail =>
                  rw [ht] at h
                  injection h with h
                  subst h
                  simp [ih tail ht]

/-- Position by position, the rule at index `i` belongs to the entry at
index `i`: a pair value becomes its `DirectPair` rule, a single value its
`DuplicatedMono` rule. -/
theorem specRules_get (m : List (Nat × String)) :
    ∀ rules, specRules m = .ok rules →
      ∀ (i s : Nat) (v : String), m[i]? = some (s, v) →
        ∃ rule, rules[i]? = some rule ∧ ruleStream rule = s ∧
          ((∃ l r, parse_audiostream_mapping v = .ok (l, some r) ∧
              rule = RoutingRule.directPair s l r) ∨
           (∃ l, parse_audiostream_mapping v = .ok (l, none) ∧
              rule = RoutingRule.duplicatedMono s l)) := by
  induction m with
  | nil =>
      intro rules h i s v hi
      simp at hi
  | cons p rest ih =>
      obtain ⟨s0, v0⟩ := p
      intro rules h i s v hi
      cases hp : parse_audiostream_mapping v0 with
      | error e =>
          simp only [specRules, hp] at h
          exact Except.noConfusion h
      | ok pr =>
          obtain ⟨l0, ro⟩ := pr
          cases ro with
          | some r0 =>
              simp only [specRules, hp] at h
              cases ht : specRules rest with
              | error e => rw [ht] at h; exact Except.noConfusion h
              | ok tail =>
                  rw [ht] at h
                  injection h with h
                  subst h
                  cases i with
                  | zero =>
                      rw [List.getElem?_cons_zero] at hi
                      injection hi with hi
                      injection hi with h1 h2
                      subst h1
                      subst h2
                      exact ⟨RoutingRule.directPair s0 l0 r0,
                        List.getElem?_cons_zero, rfl, Or.inl ⟨l0, r0, hp, rfl⟩⟩
                  | succ j =>
                      rw [List.getElem?_cons_succ] at hi
                      obtain ⟨rule, hr, hs, hk⟩ := ih tail ht j s v hi
                      exact ⟨rule, by rw [List.getElem?_cons_succ]; exact hr, hs, hk⟩
          | none =>
              simp only [specRules, hp] at h
              cases ht : specRules rest with
              | error e => rw [ht] at h; exact Except.noConfusion h
              | ok tail =>
                  rw [ht] at h
                  injection h with h
                  subst h
                  cases i with
                  | zero =>
                      rw [List.getElem?_cons_zero] at hi
                      injection hi with hi
                      injection hi with h1 h2
                      subst h1
                      subst h2
                      exact ⟨RoutingRule.duplicatedMono s0 l0,
                        List.getElem?_cons_zero, rfl, Or.inr ⟨l0, hp, rfl⟩⟩
                  | succ j =>
                      rw [List.getElem?_cons_succ] at hi
                      obtain ⟨rule, hr, hs, hk⟩ := ih tail ht j s v hi
                      exact ⟨rule, by rw [List.getElem?_cons_succ]; exact hr, hs, hk⟩

/-- Each per-rule topology contains exactly one interleave point, the one
of its own output stream. -/
theorem countInterleaves_ruleFrags (s : Nat) (rule : RoutingRule) :
    countInterleaves s (ruleFrags rule) = if ruleStream rule = s then 1 else 0 := by
  cases rule with
  | directPair s2 l r =>
      by_cases h : s2 = s <;>
        simp [countInterleaves, ruleFrags, ruleStream, List.countP_cons, h]
  | duplicatedMono s2 c =>
      by_cases h : s2 = s <;>
        simp [countInterleaves, ruleFrags, ruleStream, List.countP_cons, h]

/-- Counting interleave points distributes over appended element lists. -/
theorem countInterleaves_append (s : Nat) (a b : List AudioFrag) :
    countInterleaves s (a ++ b) = countInterleaves s a + countInterleaves s b := by
  simp [countInterleaves]

/-- Across the whole emitted element list, the number of interleave points
for stream `s` equals the number of mapping entries keyed `s`. -/
theorem specRules_interleave_count (m : List (Nat × String)) :
    ∀ rules, specRules m = .ok rules →
      ∀ s, countInterleaves s (List.flatten (rules.map ruleFrags)) =
        (m.map Prod.fst).count s := by
  induction m with
  | nil =>
      intro rules h s
      injection h with h
      subst h
      rfl
  | cons p rest ih =>
      obtain ⟨s0, v0⟩ := p
      intro rules h s
      cases hp : parse_audiostream_mapping v0 with
      | error e =>
          simp only [specRules, hp] at h
          exact Except.noConfusion h
      | ok pr =>
          obtain ⟨l0, ro⟩ := pr
          cases ro with
          | some r0 =>
              simp only [specRules, hp] at h
              cases ht : specRules rest with
              | error e => rw [ht] at h; exact Except.noConfusion h
              | ok tail =>
                  rw [ht] at h
                  injection h with h
                  subst h
                  rw [List.map_cons, List.flatten_cons, countInterleaves_append,
                    countInterleaves_ruleFrags, ih tail ht s, List.map_cons,
                    List.count_cons]
                  by_cases h0 : s0 = s <;> simp [ruleStream, h0, Nat.add_comm]
          | none =>
              simp only [specRules, hp] at h
              cases ht : specRules rest with
              | error e => rw [ht] at h; exact Except.noConfusion h
              | ok tail =>
                  rw [ht] at h
                  injection h with h
                  subst h
                  rw [List.map_cons, List.flatten_cons, countInterleaves_append,
                    countInterleaves_ruleFrags, ih tail ht s, List.map_cons,
                    List.count_cons]
                  by_cases h0 : s0 = s <;> simp [ruleStream, h0, Nat.add_comm]

/-- C2: for every entry of the mapping, in declaration order, the compiler
emits exactly one rule — a pair value a `DirectPair` rule wiring both raw
channels directly into the two inputs of one interleave point with no
duplication stage, a single value a `DuplicatedMono` rule inserting a
duplication (tee) point whose two copies feed the two inputs of one
interleave point — and the emitted pipeline is the concatenation of these
per-rule topologies in order, with exactly one interleave point per output
stream. -/
theorem claim_C2_routing_graph_compiler (m : List (Nat × String))
    (rules : List RoutingRule) (h : specRules m = .ok rules) :
    emitAudioFrags m = .ok (List.flatten (rules.map ruleFrags)) ∧
    rules.length = m.length ∧
    (∀ (i s : Nat) (v : String), m[i]? = some (s, v) →
      ∃ rule, rules[i]? = some rule ∧ ruleStream rule = s ∧
        ((∃ l r, parse_audiostream_mapping v = .ok (l, some r) ∧
            rule = RoutingRule.directPair s l r ∧
            ruleFrags rule =
              [.interleavePoint s, .pairLink l s 0, .pairLink r s 1]) ∨
         (∃ l, parse_audiostream_mapping v = .ok (l, none) ∧
            rule = RoutingRule.duplicatedMono s l ∧
            ruleFrags rule =
              [.interleavePoint s, .teePoint l s, .teeLink s 0, .teeLink s 1]))) ∧
    (∀ s, countInterleaves s (List.flatten (rules.map ruleFrags)) =
      (m.map Prod.fst).count s) ∧
    ((m.map Prod.fst).Nodup → ∀ s ∈ m.map Prod.fst,
      countInterleaves s (List.flatten (rules.map ruleFrags)) = 1) := by
  refine ⟨specRules_emit m rules h, specRules_length m rules h, ?_,
    specRules_interleave_count m rules h, ?_⟩
  · intro i s v hi
    obtain ⟨rule, hr, hs, hk⟩ := specRules_get m rules h i s v hi
    refine ⟨rule, hr, hs, ?_⟩
    rcases hk with ⟨l, r, hp2, hrule⟩ | ⟨l, hp2, hrule⟩
    · exact Or.inl ⟨l, r, hp2, hrule, by subst hrule; rfl⟩
    · exact Or.inr ⟨l, hp2, hrule, by subst hrule; rfl⟩
  · intro hnd s hs
    rw [specRules_interleave_count m rules h s]
    exact List.count_eq_one_of_mem hnd hs

/-- Witness for C2 at the mapping `{0: "2+3", 1: "4"}`: the emitted audio
pipeline is the concatenation of a DirectPair topology for stream 0 and a
DuplicatedMono topology for stream 1, with one interleave point for
stream 0. -/
theorem claim_C2_witness :
    emitAudioFrags [(0, "2+3"), (1, "4")] =
      .ok (List.flatten
        (([RoutingRule.directPair 0 2 3,
           RoutingRule.duplicatedMono 1 4]).map ruleFrags)) ∧
    countInterleaves 0 (List.flatten
        (([RoutingRule.directPair 0 2 3,
           RoutingRule.duplicatedMono 1 4]).map ruleFrags)) = 1 := by
  have h := claim_C2_routing_graph_compiler [(0, "2+3"), (1, "4")]
    [RoutingRule.directPair 0 2 3, RoutingRule.duplicatedMono 1 4] rfl
  exact ⟨h.1, h.2.2.2.2 (by decide) 0 (by decide)⟩

/-! ### Facts about source construction -/

/-- C9: whenever construction fails (with any of the three configuration
errors), the `build_pipeline` milestone is never reached: validation runs
strictly before pipeline construction, so a source with an invalid mapping
is never instantiated. -/
theorem claim_C9_errors_before_pipeline (cfg : SourceConfig)
    (e : ConstructError) (h : constructSource cfg = .error e) :
    Event.builtPipeline ∉ constructEvents cfg := by
  unfold constructSource at h
  unfold constructEvents
  cases hw : warn_incorrect_number_of_streams (parse_audiostream_map cfg.sect)
      cfg.audiostreams with
  | error e1 =>
      simp only [constructRun, hw]
      decide
  | ok u =>
      cases hc : calculate_required_input_channels
          (parse_audiostream_map cfg.sect) with
      | error e1 =>
          simp only [constructRun, hw, hc]
          decide
      | ok req =>
          cases he : emitAudioFrags (parse_audiostream_map cfg.sect) with
          | error e1 =>
              simp only [constructRun, hw, hc, he]
              decide
          | ok frags =>
              exfalso
              simp only [constructRun, hw, hc, he] at h
              exact Except.noConfusion h

/-- Witness for C9: the malformed mapping `{0: "abc"}` aborts construction
before the pipeline-build milestone. -/
theorem claim_C9_witness :
    Event.builtPipeline ∉ constructEvents ⟨some [("audiostream[0]", "abc")], 1⟩ :=
  claim_C9_errors_before_pipeline ⟨some [("audiostream[0]", "abc")], 1⟩
    (.malformedMapping "abc") rfl

/-- C8: the compiler is deterministic — identical mappings always yield
identical rule lists and identical emitted pipelines — and a restart
(which reruns `launch_pipeline` on the unchanged stored mapping)
reproduces exactly the pipeline built at construction. -/
theorem claim_C8_deterministic_restart :
    (∀ (m : List (Nat × String)) (p q : List RoutingRule),
      specRules m = .ok p → specRules m = .ok q → p = q) ∧
    (∀ (m : List (Nat × String)) (f g : List AudioFrag),
      emitAudioFrags m = .ok f → emitAudioFrags m = .ok g → f = g) ∧
    (∀ (cfg : SourceConfig) (s : SourceState), constructSource cfg = .ok s →
      restartFrags s = .ok s.pipelineFrags) := by
  refine ⟨?_, ?_, ?_⟩
  · intro m p q hp hq
    rw [hp] at hq
    injection hq
  · intro m f g hf hg
    rw [hf] at hg
    injection hg
  · intro cfg s h
    unfold constructSource at h
    cases hw : warn_incorrect_number_of_streams (parse_audiostream_map cfg.sect)
        cfg.audiostreams with
    | error e1 =>
        simp only [constructRun, hw] at h
        exact Except.noConfusion h
    | ok u =>
        cases hc : calculate_required_input_channels
            (parse_audiostream_map cfg.sect) with
        | error e1 =>
            simp only [constructRun, hw, hc] at h
            exact Except.noConfusion h
        | ok req =>
            cases he : emitAudioFrags (parse_audiostream_map cfg.sect) with
            | error e1 =>
                simp only [constructRun, hw, hc, he] at h
                exact Except.noConfusion h
            | ok frags =>
                simp only [constructRun, hw, hc, he] at h
                injection h with h
                subst h
                exact he

/-- Witness for C8: restarting the source built from `{0: "1"}` re-emits
exactly the stored pipeline elements. -/
theorem claim_C8_witness :
    restartFrags
      { audiostream_map := [(0, "1")]
        fallback_default := false
        required_input_channels := 2
        deinterleaved := true
        pipelineFrags := [.interleavePoint 0, .teePoint 1 0,
                          .teeLink 0 0, .teeLink 0 1] } =
      .ok [.interleavePoint 0, .teePoint 1 0, .teeLink 0 0, .teeLink 0 1] :=
  claim_C8_deterministic_restart.2.2 ⟨some [("audiostream[0]", "1")], 1⟩ _ rfl

/-- C5: with an empty StreamMapping, construction succeeds in fallback
mode: tier 2 is resolved, no routing rules and no pipeline elements are
emitted — no duplication or interleave stage — the audio source is not
deinterleaved, and output stream 0 is served directly by the raw
two-channel device output. -/
theorem claim_C5_empty_mapping_fallback (cfg : SourceConfig)
    (h : parse_audiostream_map cfg.sect = []) :
    constructSource cfg = .ok
      { audiostream_map := []
        fallback_default := true
        required_input_channels := 2
        deinterleaved := false
        pipelineFrags := [] } ∧
    build_audioport
      { audiostream_map := []
        fallback_default := true
        required_input_channels := 2
        deinterleaved := false
        pipelineFrags := [] } 0 = some .deviceDirect ∧
    specRules ([] : List (Nat × String)) = .ok [] := by
  refine ⟨?_, rfl, rfl⟩
  unfold constructSource constructRun
  rw [h]
  rfl

/-- Witness for C5: a configuration without the source section. -/
theorem claim_C5_witness :
    constructSource ⟨none, 2⟩ = .ok
      { audiostream_map := []
        fallback_default := true
        required_input_channels := 2
        deinterleaved := false
        pipelineFrags := [] } ∧
    build_audioport
      { audiostream_map := []
        fallback_default := true
        required_input_channels := 2
        deinterleaved := false
        pipelineFrags := [] } 0 = some .deviceDirect := by
  have h := claim_C5_empty_mapping_fallback ⟨none, 2⟩ rfl
  exact ⟨h.1, h.2.1⟩

/-- C10: `audio_channels` returns 1 on an empty mapping and the number of
entries otherwise; in particular it is never 0. -/
theorem claim_C10_audio_channels (s : SourceState) :
    0 < audio_channels s ∧
    (s.audiostream_map = [] → audio_channels s = 1) ∧
    (s.audiostream_map ≠ [] →
      audio_channels s = s.audiostream_map.length) := by
  unfold audio_channels
  refine ⟨?_, ?_, ?_⟩
  · split_ifs with h
    · omega
    · exact Nat.pos_of_ne_zero h
  · intro h
    simp [h]
  · intro h
    rw [if_neg]
    exact fun hc => h (List.length_eq_zero.mp hc)

/-- Witness for C10 at a fallback state with an empty mapping. -/
theorem claim_C10_witness :
    0 < audio_channels
      { audiostream_map := []
        fallback_default := true
        required_input_channels := 2
        deinterleaved := false
        pipelineFrags := [] } ∧
    audio_channels
      { audiostream_map := []
        fallback_default := true
        required_input_channels := 2
        deinterleaved := false
        pipelineFrags := [] } = 1 := by
  have h := claim_C10_audio_channels
    { audiostream_map := []
      fallback_default := true
      required_input_channels := 2
      deinterleaved := false
      pipelineFrags := [] }
  exact ⟨h.1, h.2.1 rfl⟩

/-- The channel-counting loop only ever fails with a malformed-mapping
error. -/
theorem calcLoop_error_shape (m : List (Nat × String)) :
    ∀ acc e, calcLoop acc m = .error e →
      ∃ v, e = ConstructError.malformedMapping v := by
  induction m with
  | nil =>
      intro acc e h
      exact Except.noConfusion h
  | cons p rest ih =>
      intro acc e h
      cases hp : parse_audiostream_mapping p.2 with
      | error e2 =>
          simp only [calcLoop, hp] at h
          injection h with h
          subst h
          exact ⟨p.2, parse_error_shape hp⟩
      | ok pr =>
          obtain ⟨l, ro⟩ := pr
          cases ro with
          | none =>
              simp only [calcLoop, hp] at h
              exact ih _ e h
          | some r =>
              simp only [calcLoop, hp] at h
              by_cases h0 : r = 0
              · subst h0
                rw [if_pos rfl] at h
                exact ih _ e h
              · rw [if_neg h0] at h
                exact ih _ e h

/-- The channel-count planner only ever fails with a malformed-mapping or
channel-capacity error, never a stream-index error. -/
theorem calc_error_shape (m : List (Nat × String)) (e : ConstructError)
    (h : calculate_required_input_channels m = .error e) :
    (∃ v, e = ConstructError.malformedMapping v) ∨
    (∃ n, e = ConstructError.channelCapacityExceeded n) := by
  unfold calculate_required_input_channels at h
  cases hcl : calcLoop 0 m with
  | error e2 =>
      rw [hcl] at h
      injection h with h
      exact Or.inl (h ▸ calcLoop_error_shape m 0 e2 hcl)
  | ok req =>
      rw [hcl] at h
      exact Or.inr ⟨req, (round_error_shape h).1⟩

/-- The pipeline emission loop only ever fails with a malformed-mapping
error. -/
theorem emitAudioFrags_error_shape (m : List (Nat × String)) :
    ∀ e, emitAudioFrags m = .error e →
      ∃ v, e = ConstructError.malformedMapping v := by
  induction m with
  | nil =>
      intro e h
      exact Except.noConfusion h
  | cons p rest ih =>
      obtain ⟨s0, v0⟩ := p
      intro e h
      cases hp : parse_audiostream_mapping v0 with
      | error e2 =>
          simp only [emitAudioFrags, emitAudioEntry, hp] at h
          injection h with h
          subst h
          exact ⟨v0, parse_error_shape hp⟩
      | ok pr =>
          obtain ⟨l, ro⟩ := pr
          cases ro with
          | some r =>
              simp only [emitAudioFrags, emitAudioEntry, hp] at h
              cases ht : emitAudioFrags rest with
              | error e2 =>
                  rw [ht] at h
                  injection h with h
                  exact h ▸ ih e2 ht
              | ok tail =>
                  rw [ht] at h
                  exact Except.noConfusion h
          | none =>
              simp only [emitAudioFrags, emitAudioEntry, hp] at h
              cases ht : emitAudioFrags rest with
              | error e2 =>
                  rw [ht] at h
                  injection h with h
                  exact h ▸ ih e2 ht
              | ok tail =>
                  rw [ht] at h
                  exact Except.noConfusion h

/-- C3: source construction fails with `StreamIndexOutOfRangeError` if and
only if some output stream index of the mapping is at least the configured
`mix.audiostreams` count, and the error carries an offending index together
with the configured limit. -/
theorem claim_C3_stream_index_bounds (cfg : SourceConfig) :
    ((∃ p ∈ parse_audiostream_map cfg.sect, cfg.audiostreams ≤ p.1) →
      ∃ i, constructSource cfg =
          .error (.streamIndexOutOfRange i cfg.audiostreams) ∧
        cfg.audiostreams ≤ i ∧
        ∃ v, (i, v) ∈ parse_audiostream_map cfg.sect) ∧
    (∀ i lim, constructSource cfg = .error (.streamIndexOutOfRange i lim) →
      lim = cfg.audiostreams ∧ cfg.audiostreams ≤ i ∧
        ∃ v, (i, v) ∈ parse_audiostream_map cfg.sect) := by
  constructor
  · intro hex
    cases hf : (parse_audiostream_map cfg.sect).find?
        (fun p => cfg.audiostreams ≤ p.1) with
    | none =>
        exfalso
        obtain ⟨p, hp, hle⟩ := hex
        exact (List.find?_eq_none.mp hf p hp) (decide_eq_true hle)
    | some q =>
        obtain ⟨qi, qv⟩ := q
        refine ⟨qi, ?_, ?_, ⟨qv, List.mem_of_find?_eq_some hf⟩⟩
        · unfold constructSource constructRun warn_incorrect_number_of_streams
          rw [hf]
        · have := List.find?_some hf
          simpa using this
  · intro i lim h
    unfold constructSource constructRun warn_incorrect_number_of_streams at h
    cases hf : (parse_audiostream_map cfg.sect).find?
        (fun p => cfg.audiostreams ≤ p.1) with
    | some q =>
        obtain ⟨qi, qv⟩ := q
        rw [hf] at h
        injection h with h
        injection h with h1 h2
        subst h1
        subst h2
        refine ⟨rfl, ?_, ⟨qv, List.mem_of_find?_eq_some hf⟩⟩
        have := List.find?_some hf
        simpa using this
    | none =>
        rw [hf] at h
        cases hc : calculate_required_input_channels
            (parse_audiostream_map cfg.sect) with
        | error e2 =>
            rw [hc] at h
            injection h with h
            rcases calc_error_shape _ _ hc with ⟨v, hv⟩ | ⟨n, hn⟩
            · rw [hv] at h
              exact ConstructError.noConfusion h
            · rw [hn] at h
              exact ConstructError.noConfusion h
        | ok req =>
            rw [hc] at h
            cases he : emitAudioFrags (parse_audiostream_map cfg.sect) with
            | error e2 =>
                rw [he] at h
                injection h with h
                obtain ⟨v, hv⟩ := emitAudioFrags_error_shape _ _ he
                rw [hv] at h
                exact ConstructError.noConfusion h
            | ok frags =>
                rw [he] at h
                exact Except.noConfusion h

/-- Witness for C3: the mapping `{5: "0"}` with 2 enabled streams fails
reporting index 5 and limit 2. -/
theorem claim_C3_witness :
    ∃ i, constructSource ⟨some [("audiostream[5]", "0")], 2⟩ =
        .error (.streamIndexOutOfRange i 2) ∧
      2 ≤ i ∧
      ∃ v, (i, v) ∈ parse_audiostream_map (some [("audiostream[5]", "0")]) :=
  (claim_C3_stream_index_bounds ⟨some [("audiostream[5]", "0")], 2⟩).1
    ⟨(5, "0"), by decide, by decide⟩

/-! ### The two spec value patterns versus the code -/

/-- An ASCII digit is not Python whitespace. -/
theorem digit_not_pyws {c : Char} (h : c.isDigit = true) : isPyWs c = false := by
  cases hws : isPyWs c
  · rfl
  · exfalso
    unfold isPyWs at hws
    simp only [Bool.or_eq_true, decide_eq_true_eq] at hws
    rcases hws with ((((rfl | rfl) | rfl) | rfl) | rfl) | rfl <;>
      exact absurd h (by decide)

/-- An ASCII digit is not the plus sign. -/
theorem digit_ne_plus {c : Char} (h : c.isDigit = true) : c ≠ '+' := by
  intro heq
  subst heq
  exact absurd h (by decide)

/-- An ASCII digit is not the minus sign. -/
theorem digit_ne_minus {c : Char} (h : c.isDigit = true) : c ≠ '-' := by
  intro heq
  subst heq
  exact absurd h (by decide)

/-- On a run of digits, the Python digit scanner always succeeds. -/
theorem pyDigitsAux_all_digits (t : List Char) :
    ∀ acc, t.all Char.isDigit = true → ∃ k, pyDigitsAux acc t = some k := by
  induction t with
  | nil => exact fun acc _ => ⟨acc, rfl⟩
  | cons c rest ih =>
      intro acc h
      rw [List.all_cons, Bool.and_eq_true] at h
      obtain ⟨hc, hrest⟩ := h
      obtain ⟨k, hk⟩ := ih (acc * 10 + digitVal c) hrest
      refine ⟨k, ?_⟩
      rw [pyDigitsAux.eq_def]
      simp only [hc, if_true]
      exact hk

/-- Stripping whitespace from a run of digits changes nothing. -/
theorem dropWhile_pyws_all_digits {l : List Char}
    (h : l.all Char.isDigit = true) : l.dropWhile isPyWs = l := by
  cases l with
  | nil => rfl
  | cons c t =>
      rw [List.all_cons, Bool.and_eq_true] at h
      rw [List.dropWhile_cons, digit_not_pyws h.1]
      simp

/-- The Python integer parser accepts every non-empty run of digits, with
a natural-number result. -/
theorem pyInt_all_digits {v : String} (hne : v.toList ≠ [])
    (hall : v.toList.all Char.isDigit = true) :
    ∃ k : Nat, pyInt v = some (k : Int) := by
  have hrev : v.toList.reverse.all Char.isDigit = true := by
    rw [List.all_eq_true] at hall ⊢
    exact fun x hx => hall x (List.mem_reverse.mp hx)
  have hstrip : pyStrip v.toList = v.toList := by
    unfold pyStrip
    rw [dropWhile_pyws_all_digits hall, dropWhile_pyws_all_digits hrev,
      List.reverse_reverse]
  cases hcs : v.toList with
  | nil => exact absurd hcs hne
  | cons c t =>
      have hc : c.isDigit = true := by
        rw [hcs, List.all_cons, Bool.and_eq_true] at hall
        exact hall.1
      have ht : t.all Char.isDigit = true := by
        rw [hcs, List.all_cons, Bool.and_eq_true] at hall
        exact hall.2
      obtain ⟨k, hk⟩ := pyDigitsAux_all_digits t (digitVal c) ht
      refine ⟨k, ?_⟩
      unfold pyInt
      rw [hstrip, hcs]
      simp only [if_neg (digit_ne_plus hc), if_neg (digit_ne_minus hc),
        pyDigits, hc, if_true, hk, Option.map_some]
      rfl

/-- A value that fully matches the spec pattern `<L>+<R>` is matched by the
prefix-anchored pair regex of the code. -/
theorem matchPairRE_of_specPair {v : String} (h : specMatchesPair v = true) :
    ∃ a b, matchPairRE v = some (a, b) := by
  unfold specMatchesPair at h
  rw [Bool.and_eq_true] at h
  obtain ⟨h1, h2⟩ := h
  have hd1 : v.toList.takeWhile Char.isDigit ≠ [] := by
    intro hnil
    rw [hnil] at h1
    simp at h1
  split at h2
  case h_2 => exact absurd h2 (by simp)
  case h_1 rest heq =>
      rw [Bool.and_eq_true] at h2
      obtain ⟨hrne, hrall⟩ := h2
      have htake : rest.takeWhile Char.isDigit = rest :=
        List.takeWhile_eq_self_iff.mpr (List.all_eq_true.mp hrall)
      have hrne2 : rest ≠ [] := by
        intro hnil
        rw [hnil] at hrne
        simp at hrne
      refine ⟨digitsToNat (v.toList.takeWhile Char.isDigit),
        digitsToNat rest, ?_⟩
      unfold matchPairRE
      rw [if_neg hd1]
      simp only [heq]
      rw [htake, if_neg hrne2]

/-- A value that fully matches the spec pattern `<N>` is accepted by the
Python integer parser. -/
theorem pyInt_of_specSingle {v : String} (h : specMatchesSingle v = true) :
    ∃ k : Nat, pyInt v = some (k : Int) := by
  unfold specMatchesSingle at h
  rw [Bool.and_eq_true] at h
  obtain ⟨h1, h2⟩ := h
  refine pyInt_all_digits ?_ h2
  intro hnil
  rw [hnil] at h1
  simp at h1

/-- C4 counterexample: the value `"-1"` matches neither spec pattern
(`<L>+<R>` or `<N>`, both non-negative), yet the code accepts it —
`int("-1")` succeeds — and source construction completes without any
error, contradicting the claim that every other value format fails with
`MalformedMappingError`. -/
theorem claim_C4_counterexample :
    specMatchesPair "-1" = false ∧ specMatchesSingle "-1" = false ∧
    parse_audiostream_mapping "-1" = .ok (-1, none) ∧
    constructOk ⟨some [("audiostream[0]", "-1")], 1⟩ = true :=
  ⟨rfl, rfl, rfl, rfl⟩

/-- C4 amended: a value is rejected — always with `MalformedMappingError`
naming the value — exactly when it neither has a prefix matching
`<L>+<R>` nor is accepted by the Python `int()` built-in (which, beyond
the spec pattern `<N>`, also accepts signs, surrounding whitespace and
digit-group underscores); every value fully matching one of the two spec
patterns is accepted. -/
theorem claim_C4_amended_malformed_values (v : String) :
    (parse_audiostream_mapping v = .error (.malformedMapping v) ↔
      (matchPairRE v = none ∧ pyInt v = none)) ∧
    (∀ e, parse_audiostream_mapping v = .error e →
      e = ConstructError.malformedMapping v) ∧
    ((specMatchesPair v = true ∨ specMatchesSingle v = true) →
      ∃ refs, parse_audiostream_mapping v = .ok refs) := by
  refine ⟨⟨?_, ?_⟩, ?_, ?_⟩
  · intro h
    cases hm : matchPairRE v with
    | some p =>
        obtain ⟨a, b⟩ := p
        unfold parse_audiostream_mapping at h
        rw [hm] at h
        exact Except.noConfusion h
    | none =>
        cases hp : pyInt v with
        | some n =>
            unfold parse_audiostream_mapping at h
            rw [hm, hp] at h
            exact Except.noConfusion h
        | none => exact ⟨rfl, rfl⟩
  · rintro ⟨hm, hp⟩
    unfold parse_audiostream_mapping
    rw [hm, hp]
  · intro e h
    exact parse_error_shape h
  · intro hspec
    rcases hspec with hs | hs
    · obtain ⟨a, b, hm⟩ := matchPairRE_of_specPair hs
      refine ⟨((a : Int), some (b : Int)), ?_⟩
      unfold parse_audiostream_mapping
      rw [hm]
    · cases hm : matchPairRE v with
      | some p =>
          obtain ⟨a, b⟩ := p
          refine ⟨((a : Int), some (b : Int)), ?_⟩
          unfold parse_audiostream_mapping
          rw [hm]
      | none =>
          obtain ⟨k, hk⟩ := pyInt_of_specSingle hs
          refine ⟨((k : Int), none), ?_⟩
          unfold parse_audiostream_mapping
          rw [hm, hk]

/-- Witness for the amended C4: `"abc"` matches neither pattern and is
rejected with the error naming it, `"2+3"` matches the pair pattern and is
accepted. -/
theorem claim_C4_witness :
    parse_audiostream_mapping "abc" = .error (.malformedMapping "abc") ∧
    ∃ refs, parse_audiostream_mapping "2+3" = .ok refs :=
  ⟨(claim_C4_amended_malformed_values "abc").1.mpr ⟨rfl, rfl⟩,
   (claim_C4_amended_malformed_values "2+3").2.2 (Or.inl rfl)⟩

/-! ### Facts about the mapping parser (Python dict semantics) -/

/-- Association-list lookup after one cons. -/
theorem dictGet_cons (p : Nat × String) (t : List (Nat × String)) (i : Nat) :
    dictGet (p :: t) i = if p.1 = i then some p.2 else dictGet t i := by
  by_cases h : p.1 = i
  · simp [dictGet, h]
  · simp [dictGet, h]

/-- In-place replacement of key `k` makes `k` look up the new value, as
long as `k` occurs. -/
theorem dictGet_map_repl_self (k : Nat) (v : String) :
    ∀ m : List (Nat × String), m.any (fun p => p.1 = k) = true →
      dictGet (m.map (fun p => if p.1 = k then (k, v) else p)) k = some v := by
  intro m
  induction m with
  | nil => intro h; simp at h
  | cons p t ih =>
      intro h
      rw [List.map_cons]
      by_cases hpk : p.1 = k
      · rw [if_pos hpk, dictGet_cons]
        simp
      · rw [if_neg hpk, dictGet_cons, if_neg hpk]
        apply ih
        rw [List.any_cons, Bool.or_eq_true] at h
        rcases h with h | h
        · exact absurd (of_decide_eq_true h) hpk
        · exact h

/-- In-place replacement of key `k` leaves every other lookup unchanged. -/
theorem dictGet_map_repl_ne (k : Nat) (v : String) {i : Nat} (hik : i ≠ k) :
    ∀ m : List (Nat × String),
      dictGet (m.map (fun p => if p.1 = k then (k, v) else p)) i = dictGet m i := by
  intro m
  induction m with
  | nil => rfl
  | cons p t ih =>
      rw [List.map_cons]
      by_cases hpk : p.1 = k
      · rw [if_pos hpk, dictGet_cons, dictGet_cons,
          if_neg (fun h => hik ((h : k = i).symm)),
          if_neg (fun h => hik (by rw [← h]; exact hpk))]
        exact ih
      · rw [if_neg hpk, dictGet_cons, dictGet_cons]
        by_cases hpi : p.1 = i
        · rw [if_pos hpi, if_pos hpi]
        · rw [if_neg hpi, if_neg hpi]
          exact ih

/-- Python-dict assignment: the assigned key looks up the new value. -/
theorem dictGet_insert_self (m : List (Nat × String)) (k : Nat) (v : String) :
    dictGet (dictInsert m k v) k = some v := by
  unfold dictInsert
  by_cases hany : m.any (fun p => p.1 = k) = true
  · rw [if_pos hany]
    exact dictGet_map_repl_self k v m hany
  · rw [if_neg hany]
    unfold dictGet
    rw [List.find?_append]
    have h1 : m.find? (fun p => p.1 = k) = none := by
      rw [List.find?_eq_none]
      intro x hx hpx
      rw [Bool.not_eq_true, List.any_eq_false] at hany
      exact hany x hx hpx
    rw [h1, Option.none_or]
    simp

/-- Python-dict assignment: every other key is unchanged. -/
theorem dictGet_insert_ne (m : List (Nat × String)) (k : Nat) (v : String)
    {i : Nat} (hik : i ≠ k) :
    dictGet (dictInsert m k v) i = dictGet m i := by
  unfold dictInsert
  by_cases hany : m.any (fun p => p.1 = k) = true
  · rw [if_pos hany]
    exact dictGet_map_repl_ne k v hik m
  · rw [if_neg hany]
    unfold dictGet
    rw [List.find?_append]
    have h2 : [(k, v)].find? (fun p => p.1 = i) = none := by
      rw [List.find?_eq_none]
      intro x hx hpx
      rw [List.mem_singleton] at hx
      subst hx
      exact hik (of_decide_eq_true hpx).symm
    rw [h2, Option.or_none]

/-- Python-dict assignment keeps existing key order and appends new keys at
the end. -/
theorem keys_dictInsert (m : List (Nat × String)) (k : Nat) (v : String) :
    (dictInsert m k v).map Prod.fst =
      if m.any (fun p => p.1 = k) then m.map Prod.fst
      else m.map Prod.fst ++ [k] := by
  unfold dictInsert
  by_cases hany : m.any (fun p => p.1 = k) = true
  · rw [if_pos hany, if_pos hany, List.map_map]
    apply List.map_congr_left
    intro p hp
    by_cases hpk : p.1 = k
    · simp [hpk]
    · simp [hpk]
  · rw [if_neg hany, if_neg hany, List.map_append]
    rfl

/-- Python-dict assignment preserves key uniqueness. -/
theorem keys_nodup_dictInsert (m : List (Nat × String)) (k : Nat) (v : String)
    (h : (m.map Prod.fst).Nodup) :
    ((dictInsert m k v).map Prod.fst).Nodup := by
  rw [keys_dictInsert]
  by_cases hany : m.any (fun p => p.1 = k) = true
  · rw [if_pos hany]
    exact h
  · rw [if_neg hany]
    refine h.append (List.nodup_singleton k) ?_
    intro a ha hmem
    rw [List.mem_singleton] at hmem
    subst hmem
    obtain ⟨p, hp, hfst⟩ := List.mem_map.mp ha
    rw [Bool.not_eq_true, List.any_eq_false] at hany
    exact hany p hp (decide_eq_true hfst)

/-- Option.map distributes over Option.or. -/
theorem optionMap_or {α β : Type} (f : α → β) (a b : Option α) :
    (a.or b).map f = (a.map f).or (b.map f) := by
  cases a <;> rfl

/-- Splitting off the first configuration entry from the last declared
value. -/
theorem lastDecl_cons (i : Nat) (kv : String × String)
    (rest : List (String × String)) :
    lastDecl i (kv :: rest) =
      (lastDecl i rest).or
        (if matchKeyRE kv.1 = some i then some kv.2 else none) := by
  unfold lastDecl
  rw [List.reverse_cons, List.find?_append, optionMap_or]
  congr 1
  by_cases h : matchKeyRE kv.1 = some i
  · simp [h]
  · simp [h]

/-- Folding configuration entries into the dict: each index looks up its
last declared value, falling back to the initial dict. -/
theorem fold_mapStep_get (entries : List (String × String)) :
    ∀ (m0 : List (Nat × String)) (i : Nat),
      dictGet (entries.foldl mapStep m0) i =
        (lastDecl i entries).or (dictGet m0 i) := by
  induction entries with
  | nil =>
      intro m0 i
      simp [lastDecl]
  | cons kv rest ih =>
      intro m0 i
      rw [List.foldl_cons, ih (mapStep m0 kv) i, lastDecl_cons, Option.or_assoc]
      congr 1
      cases hm : matchKeyRE kv.1 with
      | none => simp [mapStep, hm]
      | some j =>
          by_cases hij : i = j
          · subst hij
            simp [mapStep, hm, dictGet_insert_self]
          · simp [mapStep, hm, Ne.symm hij, dictGet_insert_ne m0 j kv.2 hij]

/-- Folding configuration entries into the dict keeps keys unique. -/
theorem fold_mapStep_nodup (entries : List (String × String)) :
    ∀ m0 : List (Nat × String), (m0.map Prod.fst).Nodup →
      ((entries.foldl mapStep m0).map Prod.fst).Nodup := by
  induction entries with
  | nil => exact fun m0 h => h
  | cons kv rest ih =>
      intro m0 h
      rw [List.foldl_cons]
      apply ih
      cases hm : matchKeyRE kv.1 with
      | none =>
          simp only [mapStep, hm]
          exact h
      | some j =>
          simp only [mapStep, hm]
          exact keys_nodup_dictInsert m0 j kv.2 h

/-- C7 counterexample: the key `"audiostream[0]x"` does not match the spec
pattern `audiostream[<index>]` as a whole key, yet the parser — whose
regex is only anchored at the start — accepts it and produces an entry for
stream 0 instead of ignoring the key. -/
theorem claim_C7_counterexample :
    specMatchesKey "audiostream[0]x" = false ∧
    parse_audiostream_map (some [("audiostream[0]x", "3")]) = [(0, "3")] :=
  ⟨rfl, rfl⟩

/-- C7 amended: one entry is produced per key whose prefix matches
`audiostream[<index>]` (trailing characters after `]` are ignored, because
the key regex is anchored only at the start); keys without such a prefix
are ignored; a missing section yields the empty mapping; stream indices
are unique in the result; and each index looks up the value of the last
configuration entry declaring it (later entries overwrite earlier
ones). -/
theorem claim_C7_amended_mapping_semantics (entries : List (String × String))
    (i : Nat) :
    parse_audiostream_map none = [] ∧
    ((parse_audiostream_map (some entries)).map Prod.fst).Nodup ∧
    dictGet (parse_audiostream_map (some entries)) i = lastDecl i entries := by
  refine ⟨rfl, ?_, ?_⟩
  · exact fold_mapStep_nodup entries [] (by simp)
  · show dictGet (entries.foldl mapStep []) i = lastDecl i entries
    rw [fold_mapStep_get entries [] i,
      show dictGet [] i = none from rfl, Option.or_none]

end Voctomix
